import Mathlib

/-
  Shallow embedding of go-zero's rolling window
  (src/code/breaker/core/collection/rollingwindow.go).

  Modelling conventions:
  * `time.Duration` values (timestamps from `timex.Now()`, intervals,
    elapsed durations) are `ℤ` (int64 nanoseconds; overflow is out of range
    for any realistic clock reading, so plain integers are used).
  * Go division and remainder on integers truncate toward zero; they are
    embedded as `Int.tdiv` / `Int.tmod`.
  * `float64` accumulation (`Bucket.Sum`) is embedded as `ℚ`; every claim
    only adds and compares the exact values the scenarios use.
  * The `int64` bucket count wraps on overflow (Go two's complement):
    `Count++` is embedded as `wrap64 (Count + 1)` with the explicit
    reduction modulo 2^64 into [-2^63, 2^63).
  * The clock is external (`timex.Now()`): each operation takes the
    current reading `now : ℤ` as an explicit argument.
  * Go panics are modelled by `Option`: `NewRollingWindow` returns `none`
    for the `size < 1` panic, and the `?`-variants of the operations
    return `none` exactly when the Go code would panic with a division
    by zero (`interval = 0` makes `elapsed / interval` panic in Go).
-/

namespace Collection

/-- Bucket defines the bucket that holds sum and num of additions
(`Bucket` in rollingwindow.go): `Sum float64`, `Count int64`. The `Count`
field is kept in the int64 range [-2^63, 2^63) by `Bucket.add`. -/
structure Bucket where
  Sum : ℚ
  Count : ℤ
deriving DecidableEq

/-- Two's-complement wrap into the int64 range: reduce modulo
2^64 = 18446744073709551616 into [-2^63, 2^63), with
2^63 = 9223372036854775808. This is what Go's `int64` addition does on
overflow. -/
def wrap64 (x : ℤ) : ℤ :=
  (x + 9223372036854775808) % 18446744073709551616 - 9223372036854775808

/-- Bucket.add: `b.Sum += v; b.Count++` (the int64 increment wraps). -/
def Bucket.add (b : Bucket) (v : ℚ) : Bucket :=
  { b with Sum := b.Sum + v, Count := wrap64 (b.Count + 1) }

/-- Bucket.reset: `b.Sum = 0; b.Count = 0`. -/
def Bucket.reset (_b : Bucket) : Bucket :=
  { Sum := 0, Count := 0 }

/-- window: fixed ring of buckets (`window` in rollingwindow.go).
The Go field `buckets []*Bucket` is a slice of in-place mutated buckets;
here mutation is functional update of the list. -/
structure window where
  buckets : List Bucket
  size : Nat
deriving DecidableEq

/-- newWindow: `size` freshly zeroed buckets. -/
def newWindow (size : Nat) : window :=
  { buckets := List.replicate size { Sum := 0, Count := 0 }, size := size }

/-- window.add: `w.buckets[offset%w.size].add(v)`. -/
def window.add (w : window) (offset : Nat) (v : ℚ) : window :=
  let i := offset % w.size
  { w with buckets := w.buckets.set i ((w.buckets.getD i ⟨0, 0⟩).add v) }

/-- window.resetBucket: `w.buckets[offset%w.size].reset()`. -/
def window.resetBucket (w : window) (offset : Nat) : window :=
  let i := offset % w.size
  { w with buckets := w.buckets.set i ((w.buckets.getD i ⟨0, 0⟩).reset) }

/-- The slot indices `(start+i) % w.size` for `i = 0..count-1` that
`window.reduce` visits, in visiting order. -/
def window.reduceSlots (w : window) (start count : Nat) : List Nat :=
  (List.range count).map (fun i => (start + i) % w.size)

/-- The bucket values `window.reduce` passes to `fn`, in visiting order
(`fn(w.buckets[(start+i)%w.size])` for `i = 0..count-1`). -/
def window.reduceVisited (w : window) (start count : Nat) : List Bucket :=
  (w.reduceSlots start count).map
    (fun j => w.buckets.getD j { Sum := 0, Count := 0 })

/-- window.reduce, full translation of the loop with a visitor that folds
an accumulator. The Go visitor receives `*Bucket`; a visitor that does not
mutate the bucket is exactly a function `α → Bucket → α`, and the loop
threads the (unchanged) window through each iteration. -/
def window.reduceFold {α : Type} (w : window) (start count : Nat)
    (fn : α → Bucket → α) (init : α) : window × α :=
  (List.range count).foldl
    (fun p i =>
      (p.1, fn p.2 (p.1.buckets.getD ((start + i) % p.1.size)
        { Sum := 0, Count := 0 })))
    (w, init)

/-- RollingWindow (rollingwindow.go). The `sync.RWMutex` serialises the
operations; in the embedding each operation is a function of the whole
state, which is the lock's observable effect. -/
structure RollingWindow where
  size : Nat
  win : window
  interval : ℤ
  ignoreCurrent : Bool
  offset : Nat
  lastTime : ℤ
deriving DecidableEq

/-- IgnoreCurrentBucket: the only `RollingWindowOption` the package
defines; sets `ignoreCurrent = true`. -/
def IgnoreCurrentBucket : RollingWindow → RollingWindow :=
  fun w => { w with ignoreCurrent := true }

/-- NewRollingWindow: panics (`none`) when `size < 1`, otherwise builds
the window with `lastTime = timex.Now()` and applies the options. -/
def NewRollingWindow (size interval : ℤ)
    (opts : List (RollingWindow → RollingWindow)) (now : ℤ) :
    Option RollingWindow :=
  if size < 1 then none
  else some (opts.foldl (fun w opt => opt w)
    { size := size.toNat
      win := newWindow size.toNat
      interval := interval
      ignoreCurrent := false
      offset := 0
      lastTime := now })

/-- RollingWindow.span: `offset := int(timex.Since(rw.lastTime) / rw.interval)`
(Go division truncates toward zero), returned if `0 <= offset < rw.size`,
else `rw.size`. -/
def RollingWindow.span (rw : RollingWindow) (now : ℤ) : ℤ :=
  let offset := Int.tdiv (now - rw.lastTime) rw.interval
  if 0 ≤ offset ∧ offset < (rw.size : ℤ) then offset else (rw.size : ℤ)

/-- The reset loop of updateOffset:
`for i := 0; i < span; i++ { rw.win.resetBucket((offset + i + 1) % rw.size) }`,
unrolled from the top: `resetLoop w offset size n` performs the first `n`
iterations. -/
def resetLoop (w : window) (offset size : Nat) : Nat → window
  | 0 => w
  | n + 1 => (resetLoop w offset size n).resetBucket ((offset + n + 1) % size)

/-- RollingWindow.updateOffset: slide the window. If `span <= 0` return
unchanged; else reset the `span` buckets after `offset`, advance `offset`
by `span` (mod size), and re-align `lastTime` to the last interval
boundary (`now - (now-lastTime) % interval`, Go remainder = `Int.tmod`). -/
def RollingWindow.updateOffset (rw : RollingWindow) (now : ℤ) : RollingWindow :=
  let span := rw.span now
  if span ≤ 0 then rw
  else
    { rw with
      win := resetLoop rw.win rw.offset rw.size span.toNat
      offset := (rw.offset + span.toNat) % rw.size
      lastTime := now - Int.tmod (now - rw.lastTime) rw.interval }

/-- RollingWindow.Add: `rw.updateOffset(); rw.win.add(rw.offset, v)`. -/
def RollingWindow.Add (rw : RollingWindow) (v : ℚ) (now : ℤ) : RollingWindow :=
  let rw1 := rw.updateOffset now
  { rw1 with win := rw1.win.add rw1.offset v }

/-- The `diff` Reduce computes: `rw.size - 1` if `span == 0 && rw.ignoreCurrent`,
else `rw.size - span`. -/
def RollingWindow.reduceDiff (rw : RollingWindow) (now : ℤ) : ℤ :=
  if rw.span now = 0 ∧ rw.ignoreCurrent
  then (rw.size : ℤ) - 1 else (rw.size : ℤ) - rw.span now

/-- The slot indices RollingWindow.Reduce visits: if `diff > 0` the `diff`
slots from `(rw.offset + span + 1) % rw.size`, else none. -/
def RollingWindow.reduceSlots (rw : RollingWindow) (now : ℤ) : List Nat :=
  if 0 < rw.reduceDiff now then
    rw.win.reduceSlots
      (((rw.offset : ℤ) + rw.span now + 1) % (rw.size : ℤ)).toNat
      (rw.reduceDiff now).toNat
  else []

/-- RollingWindow.Reduce, observed as the list of bucket values passed to
the visitor, in visiting order. -/
def RollingWindow.Reduce (rw : RollingWindow) (now : ℤ) : List Bucket :=
  if 0 < rw.reduceDiff now then
    rw.win.reduceVisited
      (((rw.offset : ℤ) + rw.span now + 1) % (rw.size : ℤ)).toNat
      (rw.reduceDiff now).toNat
  else []

/-- RollingWindow.Reduce, full translation with a folding visitor: the
state component records every write Reduce performs (there are none; the
loop only reads buckets). -/
def RollingWindow.reduceFull {α : Type} (rw : RollingWindow) (now : ℤ)
    (fn : α → Bucket → α) (init : α) : RollingWindow × α :=
  if 0 < rw.reduceDiff now then
    let p := rw.win.reduceFold
      (((rw.offset : ℤ) + rw.span now + 1) % (rw.size : ℤ)).toNat
      (rw.reduceDiff now).toNat fn init
    ({ rw with win := p.1 }, p.2)
  else (rw, init)

/-- In Go, `timex.Since(rw.lastTime) / rw.interval` panics (integer divide
by zero) when `rw.interval = 0`; span.q is `none` exactly then. -/
def RollingWindow.spanQ (rw : RollingWindow) (now : ℤ) : Option ℤ :=
  if rw.interval = 0 then none else some (rw.span now)

/-- updateOffset with the division-by-zero panic made explicit (both the
span computation and the `% rw.interval` re-alignment divide by
`rw.interval`). -/
def RollingWindow.updateOffsetQ (rw : RollingWindow) (now : ℤ) :
    Option RollingWindow :=
  (rw.spanQ now).map (fun _ => rw.updateOffset now)

/-- Add with the division-by-zero panic made explicit. -/
def RollingWindow.AddQ (rw : RollingWindow) (v : ℚ) (now : ℤ) :
    Option RollingWindow :=
  (rw.updateOffsetQ now).map (fun rw1 => { rw1 with win := rw1.win.add rw1.offset v })

/-- Reduce with the division-by-zero panic made explicit. -/
def RollingWindow.ReduceQ (rw : RollingWindow) (now : ℤ) :
    Option (List Bucket) :=
  (rw.spanQ now).map (fun _ => rw.Reduce now)

/-- Structural well-formedness that NewRollingWindow establishes and every
operation preserves: positive size, ring length matching, offset in range. -/
def RollingWindow.Valid (rw : RollingWindow) : Prop :=
  1 ≤ rw.size ∧ rw.win.size = rw.size ∧
    rw.win.buckets.length = rw.size ∧ rw.offset < rw.size

instance (rw : RollingWindow) : Decidable rw.Valid := by
  unfold RollingWindow.Valid; infer_instance

/-- An externally observable operation on a RollingWindow: an `Add` of a
value, or a `Reduce` (whose visitor, here the one collecting the visited
buckets, does not mutate the buckets). -/
inductive Op where
  | add : ℚ → Op
  | red : Op

/-- Apply one timed operation. A `Reduce` leaves the state component of
`reduceFull`. -/
def applyOp (rw : RollingWindow) : Op × ℤ → RollingWindow
  | (Op.add v, now) => rw.Add v now
  | (Op.red, now) => (rw.reduceFull now (fun (l : List Bucket) b => l ++ [b]) []).1

/-- Run a sequence of timed operations from a state. -/
def execOps (rw : RollingWindow) : List (Op × ℤ) → RollingWindow
  | [] => rw
  | p :: rest => execOps (applyOp rw p) rest

/-- The claim's span formula with floor division (the spec reads
"floor((now - lastTime) / interval)"). -/
def spanFloorSpec (lastTime now interval sz : ℤ) : ℤ :=
  let q := Int.fdiv (now - lastTime) interval
  if 0 ≤ q ∧ q < sz then q else sz

/-- The span formula with Go's division, which truncates toward zero. -/
def spanTruncSpec (lastTime now interval sz : ℤ) : ℤ :=
  let q := Int.tdiv (now - lastTime) interval
  if 0 ≤ q ∧ q < sz then q else sz

/-- The per-ring invariant relative to an operation budget `k`: every
bucket's count is nonnegative and at most `k` (so, as long as `k` stays
below 2^63, no int64 wrap has occurred), and a zero count forces a zero
sum. -/
def WinInvK (w : window) (k : ℤ) : Prop :=
  ∀ b ∈ w.buckets, 0 ≤ b.Count ∧ b.Count ≤ k ∧ (b.Count = 0 → b.Sum = 0)

/-- A small concrete rolling window used to witness the general theorems:
three zeroed buckets, interval 100, offset 0, lastTime 0 (exactly the
state NewRollingWindow 3 100 [] 0 produces). -/
def rwEx : RollingWindow :=
  { size := 3
    win := { buckets := [⟨0, 0⟩, ⟨0, 0⟩, ⟨0, 0⟩], size := 3 }
    interval := 100
    ignoreCurrent := false
    offset := 0
    lastTime := 0 }

/-- The same concrete window constructed with the IgnoreCurrentBucket
option (the state NewRollingWindow 3 100 [IgnoreCurrentBucket] 0 produces). -/
def rwIg : RollingWindow :=
  { size := 3
    win := { buckets := [⟨0, 0⟩, ⟨0, 0⟩, ⟨0, 0⟩], size := 3 }
    interval := 100
    ignoreCurrent := true
    offset := 0
    lastTime := 0 }

/-- A single-bucket window (the state NewRollingWindow 1 100 [] 0
produces): every Add at clock 0 lands in slot 0 with no slide, which
makes the int64 wrap of the bucket count observable. -/
def rw1x : RollingWindow :=
  { size := 1
    win := { buckets := [⟨0, 0⟩], size := 1 }
    interval := 100
    ignoreCurrent := false
    offset := 0
    lastTime := 0 }

section Lemmas

lemma span_nonneg (rw : RollingWindow) (now : ℤ) : 0 ≤ rw.span now := by
  unfold RollingWindow.span
  simp only []
  split
  · next h => exact h.1
  · positivity

lemma span_le_size (rw : RollingWindow) (now : ℤ) :
    rw.span now ≤ (rw.size : ℤ) := by
  unfold RollingWindow.span
  simp only []
  split
  · next h => exact le_of_lt h.2
  · exact le_refl _

lemma reduceFold_fst {α : Type} (w : window) (start count : Nat)
    (fn : α → Bucket → α) (init : α) :
    (w.reduceFold start count fn init).1 = w := by
  unfold window.reduceFold
  generalize List.range count = l
  induction l generalizing init with
  | nil => rfl
  | cons i t ih => exact ih _

lemma reduceFold_snd {α : Type} (w : window) (start count : Nat)
    (fn : α → Bucket → α) (init : α) :
    (w.reduceFold start count fn init).2 =
      (w.reduceVisited start count).foldl fn init := by
  unfold window.reduceFold window.reduceVisited window.reduceSlots
  rw [List.map_map]
  generalize List.range count = l
  induction l generalizing init with
  | nil => rfl
  | cons i t ih => simpa using ih _

lemma reduceFull_fst {α : Type} (rw : RollingWindow) (now : ℤ)
    (fn : α → Bucket → α) (init : α) :
    (rw.reduceFull now fn init).1 = rw := by
  unfold RollingWindow.reduceFull
  split
  · simp [reduceFold_fst]
  · rfl

lemma reduceFull_snd {α : Type} (rw : RollingWindow) (now : ℤ)
    (fn : α → Bucket → α) (init : α) :
    (rw.reduceFull now fn init).2 = (rw.Reduce now).foldl fn init := by
  unfold RollingWindow.reduceFull RollingWindow.Reduce
  split
  · simp [reduceFold_snd]
  · rfl

lemma getD_mem_or_default (l : List Bucket) (n : Nat) (d : Bucket) :
    l.getD n d ∈ l ∨ l.getD n d = d := by
  rcases lt_or_ge n l.length with h | h
  · left
    rw [List.getD_eq_getElem?_getD, List.getElem?_eq_getElem h]
    exact List.getElem_mem h
  · right
    rw [List.getD_eq_getElem?_getD, List.getElem?_eq_none h]
    rfl

lemma wrap64_eq_self (x : ℤ) (h1 : -9223372036854775808 ≤ x)
    (h2 : x ≤ 9223372036854775807) : wrap64 x = x := by
  unfold wrap64
  omega

lemma wrap64_wrap64_add (a b : ℤ) : wrap64 (wrap64 a + b) = wrap64 (a + b) := by
  unfold wrap64
  omega

lemma wrap64_idem (a : ℤ) : wrap64 (wrap64 a) = wrap64 a := by
  unfold wrap64
  omega

lemma winInvK_mono (w : window) (k k' : ℤ) (hk : k ≤ k')
    (h : WinInvK w k) : WinInvK w k' := by
  intro b hb
  obtain ⟨h1, h2, h3⟩ := h b hb
  exact ⟨h1, le_trans h2 hk, h3⟩

lemma winInvK_set (w : window) (l : List Bucket) (k : ℤ) (hw : WinInvK w k)
    (h : ∀ b ∈ l, b ∈ w.buckets ∨
      (0 ≤ b.Count ∧ b.Count ≤ k ∧ (b.Count = 0 → b.Sum = 0))) :
    WinInvK { w with buckets := l } k := by
  intro b hb
  rcases h b hb with hmem | hinv
  · exact hw b hmem
  · exact hinv

lemma winInvK_add (w : window) (offset : Nat) (v : ℚ) (k : ℤ)
    (hk : 0 ≤ k) (hub : k + 1 ≤ 9223372036854775807) (hw : WinInvK w k) :
    WinInvK (w.add offset v) (k + 1) := by
  apply winInvK_set w _ (k + 1) (winInvK_mono w k (k + 1) (by omega) hw)
  intro b hb
  rcases List.mem_or_eq_of_mem_set hb with hmem | heq
  · exact Or.inl hmem
  · right
    subst heq
    rcases getD_mem_or_default w.buckets (offset % w.size) ⟨0, 0⟩ with hm | hd
    · obtain ⟨h1, h2, _⟩ := hw _ hm
      simp only [Bucket.add]
      rw [wrap64_eq_self _ (by omega) (by omega)]
      exact ⟨by omega, by omega, fun hz => absurd hz (by omega)⟩
    · rw [hd]
      simp only [Bucket.add]
      rw [wrap64_eq_self _ (by omega) (by omega)]
      exact ⟨by omega, by omega, fun hz => absurd hz (by omega)⟩

lemma winInvK_resetBucket (w : window) (offset : Nat) (k : ℤ)
    (hk : 0 ≤ k) (hw : WinInvK w k) : WinInvK (w.resetBucket offset) k := by
  apply winInvK_set w _ k hw
  intro b hb
  rcases List.mem_or_eq_of_mem_set hb with hmem | heq
  · exact Or.inl hmem
  · right
    rw [heq]
    exact ⟨le_refl 0, hk, fun _ => rfl⟩

lemma winInvK_resetLoop (w : window) (offset size n : Nat) (k : ℤ)
    (hk : 0 ≤ k) (hw : WinInvK w k) : WinInvK (resetLoop w offset size n) k := by
  induction n with
  | zero => exact hw
  | succ n ih => exact winInvK_resetBucket _ _ k hk ih

lemma winInvK_updateOffset (rw : RollingWindow) (now : ℤ) (k : ℤ)
    (hk : 0 ≤ k) (hw : WinInvK rw.win k) :
    WinInvK (rw.updateOffset now).win k := by
  unfold RollingWindow.updateOffset
  simp only []
  split
  · exact hw
  · exact winInvK_resetLoop _ _ _ _ k hk hw

lemma winInvK_Add (rw : RollingWindow) (v : ℚ) (now : ℤ) (k : ℤ)
    (hk : 0 ≤ k) (hub : k + 1 ≤ 9223372036854775807)
    (hw : WinInvK rw.win k) : WinInvK (rw.Add v now).win (k + 1) := by
  unfold RollingWindow.Add
  exact winInvK_add _ _ _ k hk hub (winInvK_updateOffset rw now k hk hw)

lemma winInvK_applyOp (rw : RollingWindow) (p : Op × ℤ) (k : ℤ)
    (hk : 0 ≤ k) (hub : k + 1 ≤ 9223372036854775807)
    (hw : WinInvK rw.win k) : WinInvK (applyOp rw p).win (k + 1) := by
  rcases p with ⟨op, now⟩
  cases op with
  | add v => exact winInvK_Add rw v now k hk hub hw
  | red =>
    rw [applyOp, reduceFull_fst]
    exact winInvK_mono _ k (k + 1) (by omega) hw

lemma winInvK_execOps (ops : List (Op × ℤ)) :
    ∀ (rw : RollingWindow) (k : ℤ), 0 ≤ k →
      k + (ops.length : ℤ) ≤ 9223372036854775807 →
      WinInvK rw.win k →
      WinInvK (execOps rw ops).win (k + (ops.length : ℤ)) := by
  induction ops with
  | nil =>
    intro rw k _ _ hw
    simpa using hw
  | cons p rest ih =>
    intro rw k hk hub hw
    have hlen : ((p :: rest).length : ℤ) = (rest.length : ℤ) + 1 := by
      simp
    have hub1 : k + 1 ≤ 9223372036854775807 := by
      have hln : (0 : ℤ) ≤ (rest.length : ℤ) := by positivity
      omega
    have hstep := winInvK_applyOp rw p k hk hub1 hw
    have hres := ih (applyOp rw p) (k + 1) (by omega) (by omega) hstep
    rw [execOps]
    apply winInvK_mono _ _ _ _ hres
    omega

lemma winInvK_newWindow (n : Nat) (k : ℤ) (hk : 0 ≤ k) :
    WinInvK (newWindow n) k := by
  intro b hb
  rw [newWindow] at hb
  rw [(List.mem_replicate.mp hb).2]
  exact ⟨le_refl 0, hk, fun _ => rfl⟩

lemma add_step_rw1x (s : ℚ) (c : ℤ) :
    RollingWindow.Add ⟨1, ⟨[⟨s, c⟩], 1⟩, 100, false, 0, 0⟩ 1 0 =
      ⟨1, ⟨[⟨s + 1, wrap64 (c + 1)⟩], 1⟩, 100, false, 0, 0⟩ := rfl

lemma exec_replicate_rw1x (n : Nat) :
    ∀ (s : ℚ) (c : ℤ), wrap64 c = c →
      execOps ⟨1, ⟨[⟨s, c⟩], 1⟩, 100, false, 0, 0⟩
          (List.replicate n (Op.add 1, 0)) =
        ⟨1, ⟨[⟨s + (n : ℚ), wrap64 (c + (n : ℤ))⟩], 1⟩, 100, false, 0, 0⟩ := by
  induction n with
  | zero =>
    intro s c hc
    simp only [List.replicate_zero, execOps, Nat.cast_zero, add_zero, hc]
  | succ n ih =>
    intro s c hc
    rw [List.replicate_succ, execOps]
    have happ : applyOp (⟨1, ⟨[⟨s, c⟩], 1⟩, 100, false, 0, 0⟩ : RollingWindow)
        (Op.add 1, 0) =
        ⟨1, ⟨[⟨s + 1, wrap64 (c + 1)⟩], 1⟩, 100, false, 0, 0⟩ :=
      add_step_rw1x s c
    rw [happ, ih (s + 1) (wrap64 (c + 1)) (wrap64_idem (c + 1))]
    have hcount : wrap64 (wrap64 (c + 1) + (n : ℤ)) = wrap64 (c + ((n : ℕ) + 1 : ℕ)) := by
      rw [wrap64_wrap64_add]
      push_cast
      ring_nf
    have hsum : s + 1 + (n : ℚ) = s + ((n : ℕ) + 1 : ℕ) := by
      push_cast
      ring
    rw [hcount, hsum]

lemma resetBucket_size (w : window) (k : Nat) :
    (w.resetBucket k).size = w.size := rfl

lemma resetBucket_length (w : window) (k : Nat) :
    (w.resetBucket k).buckets.length = w.buckets.length := by
  unfold window.resetBucket
  exact List.length_set _ _ _

lemma resetLoop_size (w : window) (offset size n : Nat) :
    (resetLoop w offset size n).size = w.size := by
  induction n with
  | zero => rfl
  | succ n ih => rw [resetLoop, resetBucket_size, ih]

lemma resetLoop_length (w : window) (offset size n : Nat) :
    (resetLoop w offset size n).buckets.length = w.buckets.length := by
  induction n with
  | zero => rfl
  | succ n ih => rw [resetLoop, resetBucket_length, ih]

lemma resetLoop_getD (w : window) (offset sz n j : Nat)
    (hwsz : w.size = sz) (hlen : w.buckets.length = sz) (hj : j < sz) :
    (resetLoop w offset sz n).buckets.getD j ⟨0, 0⟩ =
      if j ∈ (Finset.range n).image (fun i => (offset + i + 1) % sz)
      then ⟨0, 0⟩ else w.buckets.getD j ⟨0, 0⟩ := by
  have hpos : 0 < sz := Nat.lt_of_le_of_lt (Nat.zero_le j) hj
  induction n with
  | zero => simp [resetLoop]
  | succ n ih =>
    have hsz' : (resetLoop w offset sz n).size = sz := by
      rw [resetLoop_size, hwsz]
    have hlen' : (resetLoop w offset sz n).buckets.length = sz := by
      rw [resetLoop_length, hlen]
    have hk : (offset + n + 1) % sz < sz := Nat.mod_lt _ hpos
    rw [resetLoop, window.resetBucket]
    simp only [hsz', Nat.mod_eq_of_lt hk]
    rw [List.getD_eq_getElem?_getD, List.getElem?_set]
    rcases eq_or_ne ((offset + n + 1) % sz) j with hkj | hkj
    · rw [if_pos hkj, if_pos (by rw [hlen']; exact hkj ▸ hk)]
      have hmem : j ∈ (Finset.range (n + 1)).image
          (fun i => (offset + i + 1) % sz) := by
        rw [Finset.range_succ, Finset.image_insert, ← hkj]
        exact Finset.mem_insert_self _ _
      rw [if_pos hmem]
      rfl
    · rw [if_neg hkj, ← List.getD_eq_getElem?_getD, ih]
      have hiff : (j ∈ (Finset.range (n + 1)).image
            (fun i => (offset + i + 1) % sz)) ↔
          (j ∈ (Finset.range n).image (fun i => (offset + i + 1) % sz)) := by
        rw [Finset.range_succ, Finset.image_insert, Finset.mem_insert]
        constructor
        · intro hc
          rcases hc with hc | hc
          · exact absurd hc.symm hkj
          · exact hc
        · exact Or.inr
      rcases Decidable.em (j ∈ (Finset.range n).image
          (fun i => (offset + i + 1) % sz)) with hmem | hmem
      · rw [if_pos hmem, if_pos (hiff.mpr hmem)]
      · rw [if_neg hmem, if_neg (fun hc => hmem (hiff.mp hc))]

lemma resetSet_card (offset sz n : Nat) (hn : n ≤ sz) :
    ((Finset.range n).image (fun i => (offset + i + 1) % sz)).card = n := by
  rw [Finset.card_image_of_injOn, Finset.card_range]
  intro i hi i' hi' hEq
  simp only [Finset.coe_range, Set.mem_Iio] at hi hi'
  have h1 : i + (offset + 1) ≡ i' + (offset + 1) [MOD sz] := by
    have e1 : offset + i + 1 = i + (offset + 1) := by omega
    have e2 : offset + i' + 1 = i' + (offset + 1) := by omega
    rw [Nat.ModEq, ← e1, ← e2]
    exact hEq
  have h2 : i % sz = i' % sz := Nat.ModEq.add_right_cancel' (offset + 1) h1
  rw [Nat.mod_eq_of_lt (lt_of_lt_of_le hi hn),
    Nat.mod_eq_of_lt (lt_of_lt_of_le hi' hn)] at h2
  exact h2

lemma foldl_opts_fields (opts : List (RollingWindow → RollingWindow))
    (h : ∀ o ∈ opts, o = IgnoreCurrentBucket) (w0 : RollingWindow) :
    (opts.foldl (fun w opt => opt w) w0).size = w0.size ∧
    (opts.foldl (fun w opt => opt w) w0).win = w0.win ∧
    (opts.foldl (fun w opt => opt w) w0).interval = w0.interval ∧
    (opts.foldl (fun w opt => opt w) w0).offset = w0.offset ∧
    (opts.foldl (fun w opt => opt w) w0).lastTime = w0.lastTime := by
  induction opts generalizing w0 with
  | nil => exact ⟨rfl, rfl, rfl, rfl, rfl⟩
  | cons o t ih =>
    rw [List.foldl_cons, h o (List.mem_cons_self _ _)]
    exact ih (fun o' ho' => h o' (List.mem_cons_of_mem _ ho')) _

lemma newRollingWindow_fields (size interval : ℤ)
    (opts : List (RollingWindow → RollingWindow)) (now : ℤ)
    (rw0 : RollingWindow)
    (hopts : ∀ o ∈ opts, o = IgnoreCurrentBucket)
    (hnew : NewRollingWindow size interval opts now = some rw0) :
    rw0.size = size.toNat ∧ rw0.win = newWindow size.toNat ∧
    rw0.interval = interval ∧ rw0.offset = 0 ∧ rw0.lastTime = now := by
  unfold NewRollingWindow at hnew
  split at hnew
  · exact absurd hnew (by simp)
  · have h : _ = rw0 := Option.some.inj hnew
    rw [← h]
    exact foldl_opts_fields opts hopts _

lemma intCast_emod_toNat (a b : Nat) : (((a : ℤ)) % ((b : ℤ))).toNat = a % b := by
  have h : ((a : ℤ)) % ((b : ℤ)) = ((a % b : ℕ) : ℤ) := by omega
  rw [h, Int.toNat_natCast]

lemma reduce_start_toNat (rw : RollingWindow) (now : ℤ) :
    (((rw.offset : ℤ) + rw.span now + 1) % (rw.size : ℤ)).toNat =
      (rw.offset + (rw.span now).toNat + 1) % rw.size := by
  have hs : rw.span now = ((rw.span now).toNat : ℤ) :=
    (Int.toNat_of_nonneg (span_nonneg rw now)).symm
  rw [hs]
  have hcast : ((rw.offset : ℤ)) + (((rw.span now).toNat : ℕ) : ℤ) + 1 =
      (((rw.offset + (rw.span now).toNat + 1 : ℕ)) : ℤ) := by push_cast; ring
  rw [hcast, intCast_emod_toNat, Int.toNat_natCast]

lemma updateOffset_interval (rw : RollingWindow) (now : ℤ) :
    (rw.updateOffset now).interval = rw.interval := by
  unfold RollingWindow.updateOffset
  simp only []
  split
  · rfl
  · rfl

lemma Add_interval (rw : RollingWindow) (v : ℚ) (now : ℤ) :
    (rw.Add v now).interval = rw.interval := by
  unfold RollingWindow.Add
  exact updateOffset_interval rw now

lemma Add_lastTime (rw : RollingWindow) (v : ℚ) (now : ℤ) :
    (rw.Add v now).lastTime = (rw.updateOffset now).lastTime := rfl

lemma updateOffset_lastTime_cases (rw : RollingWindow) (now : ℤ) :
    (rw.updateOffset now).lastTime = rw.lastTime ∨
    (rw.updateOffset now).lastTime =
      now - Int.tmod (now - rw.lastTime) rw.interval := by
  unfold RollingWindow.updateOffset
  simp only []
  split
  · exact Or.inl rfl
  · exact Or.inr rfl

lemma slide_lastTime_props (rw : RollingWindow) (now : ℤ)
    (hle : rw.lastTime ≤ now) :
    rw.interval ∣ ((rw.updateOffset now).lastTime - rw.lastTime) ∧
    (rw.updateOffset now).lastTime ≤ now := by
  rcases updateOffset_lastTime_cases rw now with h | h
  · rw [h]
    exact ⟨by simp, hle⟩
  · rw [h]
    constructor
    · have hd := Int.tdiv_add_tmod (now - rw.lastTime) rw.interval
      exact ⟨Int.tdiv (now - rw.lastTime) rw.interval, by linarith⟩
    · have hm : 0 ≤ Int.tmod (now - rw.lastTime) rw.interval :=
        Int.tmod_nonneg _ (by omega)
      omega

lemma exec_align (interval now0 : ℤ) :
    ∀ (ops : List (Op × ℤ)) (rw : RollingWindow) (t : ℤ),
      rw.interval = interval →
      interval ∣ (rw.lastTime - now0) →
      rw.lastTime ≤ t →
      List.Chain' (· ≤ ·) (t :: ops.map Prod.snd) →
      interval ∣ ((execOps rw ops).lastTime - now0) ∧
      (execOps rw ops).lastTime ≤ (ops.map Prod.snd).getLastD t := by
  intro ops
  induction ops with
  | nil =>
    intro rw t _ hdvd hle _
    exact ⟨hdvd, hle⟩
  | cons p rest ih =>
    intro rw t hint hdvd hle hchain
    rcases p with ⟨op, now⟩
    rw [List.map_cons, List.chain'_cons] at hchain
    obtain ⟨htn, hchain'⟩ := hchain
    have hstep : (applyOp rw (op, now)).interval = interval ∧
        interval ∣ ((applyOp rw (op, now)).lastTime - now0) ∧
        (applyOp rw (op, now)).lastTime ≤ now := by
      cases op with
      | red =>
        rw [applyOp, reduceFull_fst]
        exact ⟨hint, hdvd, le_trans hle htn⟩
      | add v =>
        have hslide := slide_lastTime_props rw now (le_trans hle htn)
        refine ⟨?_, ?_, ?_⟩
        · rw [applyOp, Add_interval, hint]
        · rw [applyOp, Add_lastTime]
          have h1 : interval ∣ ((rw.updateOffset now).lastTime - rw.lastTime) := by
            rw [← hint]
            exact hslide.1
          have h2 : (rw.updateOffset now).lastTime - now0 =
              ((rw.updateOffset now).lastTime - rw.lastTime) +
                (rw.lastTime - now0) := by ring
          rw [h2]
          exact dvd_add h1 hdvd
        · rw [applyOp, Add_lastTime]
          exact hslide.2
    rw [execOps, List.map_cons, List.getLastD_cons]
    exact ih (applyOp rw (op, now)) now hstep.1 hstep.2.1 hstep.2.2 hchain'

lemma span_at_lastTime (rw : RollingWindow) (hsz : 1 ≤ rw.size) :
    rw.span rw.lastTime = 0 := by
  unfold RollingWindow.span
  simp only [sub_self, Int.zero_tdiv]
  rw [if_pos ⟨le_refl 0, by exact_mod_cast hsz⟩]

lemma reduceVisited_length (w : window) (start count : Nat) :
    (w.reduceVisited start count).length = count := by
  simp [window.reduceVisited, window.reduceSlots]

lemma notMem_shifted_slots (sz : Nat) (hsz : 2 ≤ sz) :
    (0 : Nat) ∉ (List.range (sz - 1)).map (fun i => (1 + i) % sz) := by
  intro hmem
  simp only [List.mem_map, List.mem_range] at hmem
  obtain ⟨i, hi, hEq⟩ := hmem
  rw [Nat.mod_eq_of_lt (by omega)] at hEq
  omega

end Lemmas

/-- C2, counterexample: the claim computes span with floor division, so for
a backward clock jump of 50 with interval 100 (elapsed −50, floor quotient
−1 outside [0, size)) it prescribes span = size = 3; the code uses Go's
truncating division, gets quotient 0, and returns 0. -/
theorem span_floor_counterexample :
    (NewRollingWindow 3 100 [] 100).map (fun rw0 => rw0.span 50) = some 0 ∧
    spanFloorSpec 100 50 100 3 = 3 ∧ (0 : ℤ) ≠ 3 := by
  refine ⟨by decide, by decide, by decide⟩

/-- C2, amended: span() returns the quotient of (now − lastTime) by
interval truncated toward zero when that quotient lies in [0, size), and
size in every other case; for nonnegative elapsed time and positive
interval the truncated quotient coincides with the floor quotient. -/
theorem span_trunc_correct (rw : RollingWindow) (now : ℤ) :
    rw.span now = spanTruncSpec rw.lastTime now rw.interval rw.size ∧
    (0 ≤ now - rw.lastTime → 0 < rw.interval →
      Int.tdiv (now - rw.lastTime) rw.interval =
        Int.fdiv (now - rw.lastTime) rw.interval) := by
  constructor
  · rfl
  · intro helapsed hpos
    rw [Int.tdiv_eq_ediv helapsed (le_of_lt hpos),
      Int.fdiv_eq_ediv _ (le_of_lt hpos)]

/-- Witness for span_trunc_correct at a concrete state and clock reading. -/
theorem span_trunc_correct_witness :
    rwEx.span 250 = spanTruncSpec rwEx.lastTime 250 rwEx.interval rwEx.size ∧
    Int.tdiv (250 - rwEx.lastTime) rwEx.interval =
      Int.fdiv (250 - rwEx.lastTime) rwEx.interval :=
  ⟨(span_trunc_correct rwEx 250).1,
   (span_trunc_correct rwEx 250).2 (by decide) (by decide)⟩

/-- C4: size 3, interval 100; Add(1) at t=0, then Reduce at t=350
(≥ size*interval): the whole window is stale, Reduce reports no bucket at
all — in particular every bucket it reports has count 0 and sum 0, and
none retains the original count=1 value. -/
theorem reduce_after_full_expiry :
    (NewRollingWindow 3 100 [] 0).map
      (fun rw0 => (rw0.Add 1 0).Reduce 350) = some [] ∧
    (NewRollingWindow 3 100 [] 0).map
      (fun rw0 => ((rw0.Add 1 0).Reduce 350).all
        (fun b => b.Count == 0 && b.Sum == 0)) = some true := by
  refine ⟨by decide, by decide⟩

/-- C5: size 5, interval 1s (1000); Add(5) at t=0 lands in slot 0; Add(7)
at t=1000 slides by span 1, resetting only slot 1 and writing into it;
Reduce at t=1000 still visits the bucket holding the t=0 value ⟨5, 1⟩,
which indeed still sits unreset in slot 0. -/
theorem slide_preserves_previous_bucket :
    ∃ rw0, NewRollingWindow 5 1000 [] 0 = some rw0 ∧
      Bucket.mk 5 1 ∈ ((rw0.Add 5 0).Add 7 1000).Reduce 1000 ∧
      ((rw0.Add 5 0).Add 7 1000).win.buckets.getD 0 ⟨0, 0⟩ = Bucket.mk 5 1 ∧
      ((rw0.Add 5 0).Add 7 1000).offset = 1 := by
  refine ⟨_, rfl, ?_, ?_, by decide⟩
  · norm_num [RollingWindow.Reduce, RollingWindow.Add, RollingWindow.updateOffset,
      RollingWindow.span, RollingWindow.reduceDiff, resetLoop, window.add,
      window.resetBucket, window.reduceVisited, window.reduceSlots, newWindow,
      Bucket.add, Bucket.reset, List.range_succ]
    exact ⟨3, by norm_num, by decide⟩
  · norm_num [RollingWindow.Add, RollingWindow.updateOffset,
      RollingWindow.span, RollingWindow.reduceDiff, resetLoop, window.add,
      window.resetBucket, newWindow, Bucket.add, Bucket.reset]
    decide

/-- C8, counterexample: NewRollingWindow(1, 0) succeeds (size ≥ 1), yet on
that validly constructed instance Add (and Reduce) panic in Go with an
integer division by zero in span(); the panic-explicit models return none. -/
theorem totality_counterexample :
    (NewRollingWindow 1 0 [] 0).map (fun rw0 => rw0.AddQ 1 5) = some none ∧
    (NewRollingWindow 1 0 [] 0).map (fun rw0 => rw0.ReduceQ 5) = some none := by
  refine ⟨by decide, by decide⟩

/-- C8, amended: constructing with size < 1 panics and no instance is
created; for every size ≥ 1 construction succeeds; on a validly
constructed instance whose interval is nonzero, Add and Reduce are total —
they succeed for every value and every visitor, with no other failure
mode (a zero interval instead makes both panic with a division by zero). -/
theorem new_guard_and_totality :
    (∀ (size interval : ℤ) opts now,
      size < 1 → NewRollingWindow size interval opts now = none) ∧
    (∀ (size interval : ℤ) opts now,
      1 ≤ size → (NewRollingWindow size interval opts now).isSome) ∧
    (∀ (rw : RollingWindow) (v : ℚ) (now : ℤ),
      rw.interval ≠ 0 → rw.AddQ v now = some (rw.Add v now)) ∧
    (∀ (rw : RollingWindow) (now : ℤ),
      rw.interval ≠ 0 → rw.ReduceQ now = some (rw.Reduce now)) := by
  refine ⟨?_, ?_, ?_, ?_⟩
  · intro size interval opts now h
    simp [NewRollingWindow, h]
  · intro size interval opts now h
    simp [NewRollingWindow, not_lt_of_le h]
  · intro rw v now h
    simp [RollingWindow.AddQ, RollingWindow.updateOffsetQ,
      RollingWindow.spanQ, h, RollingWindow.Add]
  · intro rw now h
    simp [RollingWindow.ReduceQ, RollingWindow.spanQ, h]

/-- Witness for new_guard_and_totality at concrete inputs. -/
theorem new_guard_and_totality_witness :
    NewRollingWindow 0 100 [] 0 = none ∧
    (NewRollingWindow 3 100 [] 0).isSome ∧
    rwEx.AddQ 1 150 = some (rwEx.Add 1 150) ∧
    rwEx.ReduceQ 150 = some (rwEx.Reduce 150) :=
  ⟨new_guard_and_totality.1 0 100 [] 0 (by decide),
   new_guard_and_totality.2.1 3 100 [] 0 (by decide),
   new_guard_and_totality.2.2.1 rwEx 1 150 (by decide),
   new_guard_and_totality.2.2.2 rwEx 150 (by decide)⟩

/-- C9: Reduce leaves the entire state unchanged — the state component of
the full translation equals the input (offset, lastTime and every bucket
included), and the visitor merely folds over the visited bucket values;
only Add (via updateOffset) mutates state, Reduce performs no lazy reset.
The visitor type `α → Bucket → α` is exactly a visitor that does not
itself mutate the buckets. -/
theorem reduce_mutates_nothing {α : Type} (rw : RollingWindow) (now : ℤ)
    (fn : α → Bucket → α) (init : α) :
    (rw.reduceFull now fn init).1 = rw ∧
    (rw.reduceFull now fn init).1.offset = rw.offset ∧
    (rw.reduceFull now fn init).1.lastTime = rw.lastTime ∧
    (rw.reduceFull now fn init).1.win.buckets = rw.win.buckets ∧
    (rw.reduceFull now fn init).2 = (rw.Reduce now).foldl fn init := by
  refine ⟨reduceFull_fst rw now fn init, ?_, ?_, ?_, reduceFull_snd rw now fn init⟩
  all_goals rw [reduceFull_fst]

/-- C10, counterexample: Go's int64 count wraps on overflow, so the
claimed invariant fails on long enough Add sequences. On the single-bucket
window constructed at clock 0, 2^63 Adds of 1 at clock 0 leave the bucket
count at −2^63 (negative), and 2^64 Adds leave the count at 0 while the
sum is 2^64 ≠ 0 — a residual sum with a zero count. -/
theorem bucket_count_wrap_counterexample :
    NewRollingWindow 1 100 [] 0 = some rw1x ∧
    ((execOps rw1x (List.replicate (2 ^ 63) (Op.add 1, 0))).win.buckets.getD
        0 ⟨0, 0⟩).Count = -9223372036854775808 ∧
    ¬ (0 ≤ ((execOps rw1x (List.replicate (2 ^ 63)
        (Op.add 1, 0))).win.buckets.getD 0 ⟨0, 0⟩).Count) ∧
    ((execOps rw1x (List.replicate (2 ^ 64) (Op.add 1, 0))).win.buckets.getD
        0 ⟨0, 0⟩).Count = 0 ∧
    ((execOps rw1x (List.replicate (2 ^ 64) (Op.add 1, 0))).win.buckets.getD
        0 ⟨0, 0⟩).Sum ≠ 0 := by
  have hwrap0 : wrap64 0 = 0 := by decide
  have h63 := exec_replicate_rw1x (2 ^ 63) 0 0 hwrap0
  have h64 := exec_replicate_rw1x (2 ^ 64) 0 0 hwrap0
  have hc63 : wrap64 ((0 : ℤ) + ((2 ^ 63 : ℕ) : ℤ)) = -9223372036854775808 := by
    norm_num [wrap64]
  have hc64 : wrap64 ((0 : ℤ) + ((2 ^ 64 : ℕ) : ℤ)) = 0 := by
    norm_num [wrap64]
  refine ⟨by decide, ?_, ?_, ?_, ?_⟩
  · rw [show rw1x = (⟨1, ⟨[⟨0, 0⟩], 1⟩, 100, false, 0, 0⟩ : RollingWindow)
      from rfl, h63, hc63]
    rfl
  · rw [show rw1x = (⟨1, ⟨[⟨0, 0⟩], 1⟩, 100, false, 0, 0⟩ : RollingWindow)
      from rfl, h63, hc63]
    show ¬ (0 : ℤ) ≤ -9223372036854775808
    omega
  · rw [show rw1x = (⟨1, ⟨[⟨0, 0⟩], 1⟩, 100, false, 0, 0⟩ : RollingWindow)
      from rfl, h64, hc64]
    rfl
  · rw [show rw1x = (⟨1, ⟨[⟨0, 0⟩], 1⟩, 100, false, 0, 0⟩ : RollingWindow)
      from rfl, h64]
    show (0 : ℚ) + ((2 ^ 64 : ℕ) : ℚ) ≠ 0
    norm_num

/-- C10, amended: in every state reachable from construction by a sequence
of at most 2^63 − 1 Add and Reduce calls (with the non-mutating
list-collecting visitor) — so that no bucket's int64 count can overflow —
every bucket has a nonnegative count, and a zero count forces a zero sum:
counts only grow by add or drop to zero by reset, and reset zeroes both
fields together. -/
theorem bucket_count_invariant_bounded (size interval : ℤ)
    (opts : List (RollingWindow → RollingWindow)) (now0 : ℤ)
    (rw0 : RollingWindow) (ops : List (Op × ℤ))
    (hopts : ∀ o ∈ opts, o = IgnoreCurrentBucket)
    (hnew : NewRollingWindow size interval opts now0 = some rw0)
    (hlen : (ops.length : ℤ) ≤ 9223372036854775807) :
    ∀ b ∈ (execOps rw0 ops).win.buckets,
      0 ≤ b.Count ∧ (b.Count = 0 → b.Sum = 0) := by
  have hwin : rw0.win = newWindow size.toNat :=
    (newRollingWindow_fields size interval opts now0 rw0 hopts hnew).2.1
  have h0 : WinInvK rw0.win 0 := by
    rw [hwin]
    exact winInvK_newWindow _ 0 (le_refl 0)
  have h := winInvK_execOps ops rw0 0 (le_refl 0) (by omega) h0
  intro b hb
  obtain ⟨h1, _, h3⟩ := h b hb
  exact ⟨h1, h3⟩

/-- C1: updateOffset with span s: if s ≤ 0 it returns without mutating
any state; otherwise it resets exactly s buckets — those at slots
(offset + i + 1) mod size for i < s — sets offset to
(offset + s) mod size (which lies in [0, size)), and leaves every other
bucket's contents unchanged. -/
theorem updateOffset_correct (rw : RollingWindow) (now : ℤ) (h : rw.Valid) :
    (rw.span now ≤ 0 → rw.updateOffset now = rw) ∧
    (0 < rw.span now →
      (rw.updateOffset now).offset =
        (rw.offset + (rw.span now).toNat) % rw.size ∧
      (rw.updateOffset now).offset < rw.size ∧
      (∀ j, j < rw.size →
        (rw.updateOffset now).win.buckets.getD j ⟨0, 0⟩ =
          if j ∈ (Finset.range (rw.span now).toNat).image
              (fun i => (rw.offset + i + 1) % rw.size)
          then ⟨0, 0⟩ else rw.win.buckets.getD j ⟨0, 0⟩) ∧
      ((Finset.range (rw.span now).toNat).image
          (fun i => (rw.offset + i + 1) % rw.size)).card =
        (rw.span now).toNat) := by
  obtain ⟨hsz, hwsz, hlen, _⟩ := h
  constructor
  · intro hle
    unfold RollingWindow.updateOffset
    simp only []
    rw [if_pos hle]
  · intro hpos
    unfold RollingWindow.updateOffset
    simp only []
    rw [if_neg (not_le_of_lt hpos)]
    refine ⟨rfl, Nat.mod_lt _ hsz, ?_, ?_⟩
    · intro j hj
      exact resetLoop_getD rw.win rw.offset rw.size _ j hwsz hlen hj
    · apply resetSet_card
      have h1 := span_le_size rw now
      have h2 := span_nonneg rw now
      omega

/-- Witness for updateOffset_correct: the concrete window at clock 150
(span 1): offset advances from 0 to 1 and exactly one bucket is reset. -/
theorem updateOffset_correct_witness :
    (0 : ℤ) < rwEx.span 150 ∧
    (rwEx.updateOffset 150).offset =
      (rwEx.offset + (rwEx.span 150).toNat) % rwEx.size ∧
    ((Finset.range (rwEx.span 150).toNat).image
        (fun i => (rwEx.offset + i + 1) % rwEx.size)).card =
      (rwEx.span 150).toNat :=
  ⟨by decide,
   ((updateOffset_correct rwEx 150 (by decide)).2 (by decide)).1,
   ((updateOffset_correct rwEx 150 (by decide)).2 (by decide)).2.2.2⟩

/-- C3: Reduce computes diff = size − 1 when span = 0 and ignoreCurrent is
set, and diff = size − span otherwise; when diff > 0 it visits exactly
diff buckets starting at slot (offset + span + 1) mod size in ring order,
and when diff ≤ 0 it visits no bucket at all. -/
theorem reduce_visits_diff_buckets (rw : RollingWindow) (now : ℤ)
    (h : rw.Valid) :
    rw.reduceDiff now = (if rw.span now = 0 ∧ rw.ignoreCurrent
      then (rw.size : ℤ) - 1 else (rw.size : ℤ) - rw.span now) ∧
    (0 < rw.reduceDiff now →
      rw.Reduce now = (List.range (rw.reduceDiff now).toNat).map
        (fun i => rw.win.buckets.getD
          ((rw.offset + (rw.span now).toNat + 1 + i) % rw.size) ⟨0, 0⟩) ∧
      (rw.Reduce now).length = (rw.reduceDiff now).toNat) ∧
    (rw.reduceDiff now ≤ 0 → rw.Reduce now = []) := by
  obtain ⟨hsz, hwsz, hlen, _⟩ := h
  refine ⟨rfl, ?_, ?_⟩
  · intro hpos
    unfold RollingWindow.Reduce window.reduceVisited window.reduceSlots
    rw [if_pos hpos, List.map_map]
    constructor
    · apply List.map_congr_left
      intro i _
      simp only [Function.comp]
      rw [hwsz, reduce_start_toNat, Nat.mod_add_mod]
    · simp
  · intro hle
    unfold RollingWindow.Reduce
    rw [if_neg (not_lt.mpr hle)]

/-- Witness for reduce_visits_diff_buckets: the concrete window at clock
150 (span 1, diff 2): Reduce visits exactly two buckets. -/
theorem reduce_visits_diff_buckets_witness :
    (0 : ℤ) < rwEx.reduceDiff 150 ∧
    (rwEx.Reduce 150).length = (rwEx.reduceDiff 150).toNat :=
  ⟨by decide,
   (((reduce_visits_diff_buckets rwEx 150 (by decide)).2.1 (by decide)).2)⟩

/-- C6: on a RollingWindow constructed with the IgnoreCurrentBucket
option, calling Add(1) and then Reduce without any clock advance visits
exactly size - 1 buckets, and the just-written active bucket (slot
offset) is not among the visited slots. -/
theorem ignoreCurrent_excludes_active_bucket (size interval now0 : ℤ)
    (rw0 : RollingWindow) (h1 : 1 ≤ size) (_h2 : 0 < interval)
    (hnew : NewRollingWindow size interval [IgnoreCurrentBucket] now0 = some rw0) :
    ((rw0.Add 1 now0).Reduce now0).length = size.toNat - 1 ∧
    (rw0.Add 1 now0).offset ∉ (rw0.Add 1 now0).reduceSlots now0 := by
  unfold NewRollingWindow at hnew
  rw [if_neg (not_lt.mpr h1)] at hnew
  have hrw0 : rw0 =
      (⟨size.toNat, newWindow size.toNat, interval, true, 0, now0⟩ :
        RollingWindow) := (Option.some.inj hnew).symm
  subst hrw0
  have hsz : 1 ≤ size.toNat := by omega
  have hspan0 : RollingWindow.span
      ⟨size.toNat, newWindow size.toNat, interval, true, 0, now0⟩ now0 = 0 :=
    span_at_lastTime _ hsz
  have hAdd : RollingWindow.Add
      ⟨size.toNat, newWindow size.toNat, interval, true, 0, now0⟩ 1 now0 =
      ⟨size.toNat, (newWindow size.toNat).add 0 1, interval, true, 0, now0⟩ := by
    unfold RollingWindow.Add RollingWindow.updateOffset
    simp only [hspan0]
    rw [if_pos (le_refl (0 : ℤ))]
  rw [hAdd]
  have hspan1 : RollingWindow.span
      ⟨size.toNat, (newWindow size.toNat).add 0 1, interval, true, 0, now0⟩
        now0 = 0 := span_at_lastTime _ hsz
  have hdiff : RollingWindow.reduceDiff
      ⟨size.toNat, (newWindow size.toNat).add 0 1, interval, true, 0, now0⟩
        now0 = (size.toNat : ℤ) - 1 := by
    unfold RollingWindow.reduceDiff
    rw [hspan1]
    simp
  rcases Nat.lt_or_ge size.toNat 2 with hlt | hge
  · have hsz1 : size.toNat = 1 := by omega
    have hd0 : ¬ (0 : ℤ) < (size.toNat : ℤ) - 1 := by omega
    constructor
    · unfold RollingWindow.Reduce
      rw [hdiff, if_neg hd0, hsz1]
      rfl
    · unfold RollingWindow.reduceSlots
      rw [hdiff, if_neg hd0]
      simp
  · have hdpos : (0 : ℤ) < (size.toNat : ℤ) - 1 := by omega
    have hstart : ((((0 : Nat) : ℤ) + RollingWindow.span
        ⟨size.toNat, (newWindow size.toNat).add 0 1, interval, true, 0, now0⟩
          now0 + 1) % ((size.toNat : Nat) : ℤ)).toNat = 1 := by
      rw [hspan1]
      have h1n : (((0 : Nat) : ℤ)) + 0 + 1 = ((1 : Nat) : ℤ) := by norm_num
      rw [h1n, intCast_emod_toNat]
      exact Nat.mod_eq_of_lt (by omega)
    constructor
    · unfold RollingWindow.Reduce
      rw [hdiff, if_pos hdpos, reduceVisited_length]
      omega
    · unfold RollingWindow.reduceSlots
      rw [hdiff, if_pos hdpos, hstart]
      unfold window.reduceSlots
      have hcnt : (((size.toNat : ℤ) - 1)).toNat = size.toNat - 1 := by omega
      rw [hcnt]
      exact notMem_shifted_slots size.toNat hge

/-- Witness for ignoreCurrent_excludes_active_bucket: size 3, Add then
Reduce at the same instant visits 2 buckets, excluding slot 0. -/
theorem ignoreCurrent_excludes_active_bucket_witness :
    ((rwIg.Add 1 0).Reduce 0).length = (3 : ℤ).toNat - 1 ∧
    (rwIg.Add 1 0).offset ∉ (rwIg.Add 1 0).reduceSlots 0 :=
  ignoreCurrent_excludes_active_bucket 3 100 0 rwIg (by decide) (by decide)
    (by decide)

/-- C7: under a monotone clock, at every observation point lastTime is an
interval-aligned instant (it keeps the phase fixed at construction: the
distance to the construction instant is a multiple of interval) not
greater than the last clock reading; and each updateOffset that slides
re-aligns lastTime = now − ((now − lastTime) mod interval), the most
recent interval boundary rather than now itself. -/
theorem lastTime_aligned (size interval now0 : ℤ)
    (opts : List (RollingWindow → RollingWindow)) (rw0 : RollingWindow)
    (ops : List (Op × ℤ))
    (hopts : ∀ o ∈ opts, o = IgnoreCurrentBucket)
    (_hpos : 0 < interval)
    (hnew : NewRollingWindow size interval opts now0 = some rw0)
    (hchain : List.Chain' (· ≤ ·) (now0 :: ops.map Prod.snd)) :
    (interval ∣ ((execOps rw0 ops).lastTime - now0) ∧
     (execOps rw0 ops).lastTime ≤ (ops.map Prod.snd).getLastD now0) ∧
    (∀ (rw : RollingWindow) (now : ℤ), 0 < rw.span now →
      (rw.updateOffset now).lastTime =
        now - Int.tmod (now - rw.lastTime) rw.interval) := by
  constructor
  · obtain ⟨_, _, hint, _, hlast⟩ :=
      newRollingWindow_fields size interval opts now0 rw0 hopts hnew
    exact exec_align interval now0 ops rw0 now0 hint
      (by rw [hlast]; simp) (by rw [hlast]) hchain
  · intro rw now hpos'
    unfold RollingWindow.updateOffset
    simp only []
    rw [if_neg (not_le_of_lt hpos')]

/-- Witness for lastTime_aligned: one Add at clock 150 on the concrete
window slides it once; the new lastTime 100 is still a multiple of the
interval away from the construction instant. -/
theorem lastTime_aligned_witness :
    (100 : ℤ) ∣ ((execOps rwEx [(Op.add 1, 150)]).lastTime - 0) :=
  (lastTime_aligned 3 100 0 [] rwEx [(Op.add 1, 150)] (by simp) (by decide)
    (by decide) (by simp)).1.1

/-- Witness for bucket_count_invariant_bounded: one Add then one Reduce on
a concrete window (2 operations, well below the 2^63 − 1 bound); the
written bucket ⟨5, 1⟩ satisfies the invariant. -/
theorem bucket_count_invariant_bounded_witness :
    0 ≤ (Bucket.mk 5 1).Count ∧ ((Bucket.mk 5 1).Count = 0 → (Bucket.mk 5 1).Sum = 0) :=
  bucket_count_invariant_bounded 3 100 [] 0 rwEx [(Op.add 5, 0), (Op.red, 50)]
    (by simp) (by decide) (by norm_num) (Bucket.mk 5 1)
    (by
      norm_num [execOps, applyOp, RollingWindow.Add, RollingWindow.updateOffset,
        RollingWindow.span, RollingWindow.reduceDiff, RollingWindow.reduceFull,
        window.reduceFold, resetLoop, window.add, window.resetBucket, newWindow,
        Bucket.add, Bucket.reset, rwEx, List.range_succ]
      decide)

end Collection
